import Mathlib

/-!
Shallow embedding of the course-registration assistant in `agent.py`.

The program keeps a static catalog (`courses`, a name → {type, tags} mapping,
insertion ordered), a mutable selection set (`selected_courses`), and a bounded
conversation history.  The operations embedded here are
`find_similar_courses`, `select_course`, `delete_course`, `query_courses` and
`ConversationManager.add_message`.  Stateful methods are modelled as functions
from the system state to (result, new state).
-/

namespace CourseAgent

/-! ### String helpers mirroring the Python primitives -/

/-- Python `needle in hay` on the underlying character lists:
`true` iff `needle` occurs as a contiguous (possibly empty) run inside `hay`. -/
def charsIn (needle : List Char) : List Char → Bool
  | [] => needle.isEmpty
  | c :: cs => needle.isPrefixOf (c :: cs) || charsIn needle cs

/-- Python `needle in hay` for strings (substring containment). -/
def strIn (needle hay : String) : Bool :=
  charsIn needle.toList hay.toList

/-- Python `s.lower()`: character-wise lowercasing (identity on the CJK
characters the catalog uses). -/
def pyLower (s : String) : String :=
  String.mk (s.toList.map Char.toLower)

/-- Split a character list at every whitespace character, keeping the
(possibly empty) pieces between separators. -/
def splitWs : List Char → List (List Char)
  | [] => [[]]
  | c :: cs =>
    if c.isWhitespace then
      [] :: splitWs cs
    else
      match splitWs cs with
      | [] => [[c]]
      | t :: ts => (c :: t) :: ts

/-- Python `s.split()`: split on whitespace runs, dropping empty tokens. -/
def pySplit (s : String) : List String :=
  ((splitWs s.toList).map String.mk).filter (fun t => t ≠ "")

/-! ### Data model -/

/-- The value of one catalog entry: `{"type": ..., "tags": [...]}`. -/
structure CourseInfo where
  ctype : String
  tags : List String
deriving DecidableEq, Repr

/-- The mutable system state of `CourseSystem`: the (insertion-ordered)
catalog and the selection set.  The selection set is kept as a duplicate-free
list recording iteration order. -/
structure CourseSystem where
  courses : List (String × CourseInfo)
  selected_courses : List String
deriving DecidableEq, Repr

/-- The catalog's key view, `self.courses.keys()`. -/
def CourseSystem.courseNames (sys : CourseSystem) : List String :=
  sys.courses.map Prod.fst

/-- The result dictionary returned by `select_course` / `delete_course`. -/
structure OperationResult where
  success : Bool
  message : String
  similar_courses : List String
  needs_confirmation : Bool
  course_to_confirm : Option String
deriving DecidableEq, Repr

/-! ### Fuzzy match engine (`find_similar_courses`) -/

/-- The per-member test of the fuzzy-match loop body: lowercase query is a
substring of the lowercase member or vice versa, or some whitespace token of
the lowercase query is a substring of the lowercase member.  `search` is the
already-lowercased query. -/
def matchesQuery (search : String) (course : String) : Bool :=
  let courseLower := pyLower course
  strIn search courseLower || strIn courseLower search ||
    (pySplit search).any (fun keyword => strIn keyword courseLower)

/-- The body of the fuzzy-match scan loop: append `course` to the
accumulator when the substring test holds, `elif` the keyword test holds.
`search_term` is the already-lowercased query. -/
def fuzzyStep (search_term : String) (acc : List String) (course : String) :
    List String :=
  let course_lower := pyLower course
  if strIn search_term course_lower || strIn course_lower search_term then
    acc ++ [course]
  else if (pySplit search_term).any (fun keyword => strIn keyword course_lower) then
    acc ++ [course]
  else
    acc

/-- The scan loop of `find_similar_courses` over a given pool, written as the
source writes it: exact match short-circuits, otherwise one accumulating
pass over the pool. -/
def findSimilarList (course_name : String) (pool : List String) : List String :=
  if course_name ∈ pool then
    [course_name]
  else
    pool.foldl (fuzzyStep (pyLower course_name)) []

/-- The method `CourseSystem.find_similar_courses`: pool is the selection set when
`selected` is true, the catalog keys otherwise. -/
def find_similar_courses (sys : CourseSystem) (course_name : String)
    (selected : Bool := false) : List String :=
  findSimilarList course_name
    (if selected then sys.selected_courses else sys.courseNames)

/-! ### Select / delete operations -/

/-- The all-false result dictionary both operations start from. -/
def emptyResult : OperationResult :=
  { success := false, message := "", similar_courses := [],
    needs_confirmation := false, course_to_confirm := none }

/-- The numbered menu body: `"\n".join(f"{i + 1}. {c}" for i, c in enumerate(courses))`. -/
def menuLines (courses : List String) : String :=
  String.intercalate "\n" (courses.enum.map (fun p => s!"{p.1 + 1}. {p.2}"))

/-- The method `CourseSystem.select_course`, returning the result dictionary and the
post-state. -/
def select_course (sys : CourseSystem) (course_name : String)
    (force : Bool := false) : OperationResult × CourseSystem :=
  if force && course_name ∈ sys.courseNames then
    if course_name ∈ sys.selected_courses then
      ({ emptyResult with message := s!"您已经选择了 {course_name}" }, sys)
    else
      ({ emptyResult with
          success := true
          message := s!"成功选择 {course_name}" },
       { sys with selected_courses := sys.selected_courses ++ [course_name] })
  else
    match find_similar_courses sys course_name with
    | [] =>
      ({ emptyResult with
         message := s!"未找到与 \x27{course_name}\x27 相关的课程" }, sys)
    | [found_course] =>
      ({ emptyResult with
          needs_confirmation := true
          course_to_confirm := some found_course
          message := s!"您是否想选择 \x27{found_course}\x27 ？" }, sys)
    | similar_courses =>
      ({ emptyResult with
          similar_courses := similar_courses
          message := "找到多个相关课程：\n" ++ menuLines similar_courses }, sys)

/-! ### Query -/

/-- One entry of the list `query_courses` returns:
`{"name": ..., "type": ..., "tags": [...]}`. -/
structure QueryRow where
  name : String
  ctype : String
  tags : List String
deriving DecidableEq, Repr

/-- The value `len(set(tags) & set(interests))`: the number of distinct tags that
occur among the interests. -/
def interSize (tags interests : List String) : Nat :=
  (tags.dedup.filter (fun t => t ∈ interests)).length

/-- The sort key of `query_courses`: it looks the row's tags up in the
catalog (`self.courses[x["name"]]["tags"]`) and intersects with the
interests.  A name absent from the catalog cannot occur on rows built from
the catalog; it is mapped to key 0. -/
def tagKey (sys : CourseSystem) (interests : List String) (row : QueryRow) : Nat :=
  match sys.courses.lookup row.name with
  | some info => interSize info.tags interests
  | none => 0

/-- Stable insertion into a list sorted by non-increasing key: `x` passes
over exactly the elements with a strictly larger key, so it lands before
every element of equal key (which all entered from further right). -/
def insertByKeyDesc (key : α → Nat) (x : α) : List α → List α
  | [] => [x]
  | y :: ys =>
    if key x < key y then y :: insertByKeyDesc key x ys else x :: y :: ys

/-- Stable sort by non-increasing key, modelling Python's stable
`list.sort(key=..., reverse=True)`. -/
def sortByKeyDesc (key : α → Nat) : List α → List α
  | [] => []
  | x :: xs => insertByKeyDesc key x (sortByKeyDesc key xs)

/-- The filtering pass of `query_courses`: keep a course iff `filters` is
empty or the course type is among the filters, in catalog order. -/
def baseRows (sys : CourseSystem) (filters : List String) : List QueryRow :=
  (sys.courses.filter (fun p => filters.isEmpty || p.2.ctype ∈ filters)).map
    (fun p => { name := p.1, ctype := p.2.ctype, tags := p.2.tags })

/-- The method `CourseSystem.query_courses`.  `filters = []` models Python
`filters=None` / `[]`, likewise for `interests`. -/
def query_courses (sys : CourseSystem) (filters interests : List String) :
    List QueryRow :=
  let results := baseRows sys filters
  if interests.isEmpty then results
  else sortByKeyDesc (tagKey sys interests) results

/-! ### Conversation history -/

/-- One history entry `{"role": ..., "content": ...}`. -/
structure Message where
  role : String
  content : String
deriving DecidableEq, Repr

/-- The class `ConversationManager`: a rolling history bounded by `max_history`
(default 3). -/
structure ConversationManager where
  history : List Message
  max_history : Nat
deriving DecidableEq, Repr

/-- The freshly constructed manager with the default capacity. -/
def ConversationManager.init (max_history : Nat := 3) : ConversationManager :=
  { history := [], max_history := max_history }

/-- The method `ConversationManager.add_message`: append, then `pop(0)` once if the
length exceeds the capacity. -/
def add_message (cm : ConversationManager) (role content : String) :
    ConversationManager :=
  let h := cm.history ++ [{ role := role, content := content }]
  if h.length > cm.max_history then
    { cm with history := h.tail }
  else
    { cm with history := h }

/-- The method `CourseSystem.delete_course`, returning the result dictionary and the
post-state. -/
def delete_course (sys : CourseSystem) (course_name : String)
    (force : Bool := false) : OperationResult × CourseSystem :=
  if force && course_name ∈ sys.selected_courses then
    ({ emptyResult with
        success := true
        message := s!"成功退选 {course_name}" },
     { sys with selected_courses := sys.selected_courses.erase course_name })
  else if course_name ∈ sys.selected_courses then
    ({ emptyResult with
        needs_confirmation := true
        course_to_confirm := some course_name
        message := s!"确认要退选 \x27{course_name}\x27 吗？" }, sys)
  else
    match find_similar_courses sys course_name true with
    | [] =>
      ({ emptyResult with
         message := s!"未找到与 \x27{course_name}\x27 相关的已选课程" }, sys)
    | [found_course] =>
      ({ emptyResult with
          needs_confirmation := true
          course_to_confirm := some found_course
          message := s!"您是否想退选 \x27{found_course}\x27 ？" }, sys)
    | similar_courses =>
      ({ emptyResult with
          similar_courses := similar_courses
          message := "找到多个相关的已选课程：\n" ++ menuLines similar_courses }, sys)

/-! ### The concrete catalog fixed by `CourseSystem.__init__` -/

/-- The static catalog loaded by the constructor, in source order. -/
def initCourses : List (String × CourseInfo) :=
  [("高等数学", { ctype := "必修", tags := ["理科", "基础课"] }),
   ("线性代数", { ctype := "必修", tags := ["理科", "基础课"] }),
   ("数据结构与算法", { ctype := "必修", tags := ["编程", "专业核心"] }),
   ("计算机网络", { ctype := "必修", tags := ["专业核心", "网络"] }),
   ("操作系统", { ctype := "必修", tags := ["专业核心", "系统"] }),
   ("概率论与数理统计", { ctype := "必修", tags := ["理科", "基础课"] }),
   ("信号与系统", { ctype := "必修", tags := ["专业基础", "通信"] }),
   ("数字信号处理", { ctype := "必修", tags := ["专业核心", "通信"] }),
   ("通信原理", { ctype := "必修", tags := ["专业核心", "通信"] }),
   ("电磁场与电磁波", { ctype := "必修", tags := ["专业基础", "通信"] }),
   ("微波技术与天线", { ctype := "必修", tags := ["专业核心", "通信"] }),
   ("人工智能导论", { ctype := "选修", tags := ["专业方向", "AI"] }),
   ("云计算技术", { ctype := "选修", tags := ["专业方向", "云计算"] }),
   ("大数据处理", { ctype := "选修", tags := ["专业方向", "数据"] }),
   ("现代交换技术", { ctype := "必修", tags := ["专业核心", "通信"] }),
   ("光纤通信", { ctype := "必修", tags := ["专业核心", "通信"] }),
   ("移动通信", { ctype := "必修", tags := ["专业核心", "通信"] }),
   ("卫星通信", { ctype := "选修", tags := ["专业方向", "通信"] }),
   ("无线网络", { ctype := "选修", tags := ["专业方向", "通信"] }),
   ("通信网安全", { ctype := "选修", tags := ["专业方向", "安全"] }),
   ("移动应用开发", { ctype := "选修", tags := ["编程", "移动开发"] }),
   ("信息安全", { ctype := "选修", tags := ["专业方向", "安全"] }),
   ("信息安全基础", { ctype := "必修", tags := ["专业核心", "安全"] }),
   ("密码学", { ctype := "必修", tags := ["专业核心", "安全"] }),
   ("网络安全技术", { ctype := "必修", tags := ["专业核心", "安全"] }),
   ("系统安全", { ctype := "必修", tags := ["专业核心", "安全"] }),
   ("应用安全", { ctype := "必修", tags := ["专业核心", "安全"] }),
   ("网络攻防技术", { ctype := "必修", tags := ["专业核心", "安全"] }),
   ("网络安全法律法规", { ctype := "选修", tags := ["专业方向", "法律"] }),
   ("云计算安全", { ctype := "选修", tags := ["专业方向", "云计算", "安全"] }),
   ("体育", { ctype := "选修", tags := ["运动"] })]

/-- The state right after `CourseSystem.__init__`: full catalog, empty
selection set. -/
def initSystem : CourseSystem :=
  { courses := initCourses, selected_courses := [] }

/-! ## Lemmas about the fuzzy-match engine -/

/-- One loop step appends the course exactly when the combined
substring-or-keyword predicate holds. -/
theorem fuzzyStep_eq (search : String) (acc : List String) (course : String) :
    fuzzyStep search acc course =
      acc ++ (if matchesQuery search course then [course] else []) := by
  cases h1 : strIn search (pyLower course) <;>
    cases h2 : strIn (pyLower course) search <;>
      cases h3 : (pySplit search).any (fun keyword => strIn keyword (pyLower course)) <;>
        simp [fuzzyStep, matchesQuery, h1, h2, h3]

/-- The whole scan is the filter by that predicate, in pool order. -/
theorem foldl_fuzzyStep (search : String) (pool : List String) :
    ∀ acc : List String,
      pool.foldl (fuzzyStep search) acc = acc ++ pool.filter (matchesQuery search) := by
  induction pool with
  | nil => intro acc; simp
  | cons c cs ih =>
    intro acc
    rw [List.foldl_cons, ih, fuzzyStep_eq, List.filter_cons]
    cases h : matchesQuery search c <;> simp [h]

/-- Exact membership short-circuits the scan. -/
theorem findSimilarList_exact (q : String) (pool : List String) (h : q ∈ pool) :
    findSimilarList q pool = [q] := by
  simp [findSimilarList, h]

/-- Without an exact match the engine returns the filtered pool. -/
theorem findSimilarList_eq_filter (q : String) (pool : List String) (h : q ∉ pool) :
    findSimilarList q pool = pool.filter (matchesQuery (pyLower q)) := by
  simp [findSimilarList, h, foldl_fuzzyStep]

/-- C2: for every query and pool, an exact (case-sensitive) pool member
short-circuits to the singleton of that member; otherwise the engine
returns, in pool iteration order, exactly the members where the lowercase
query is a substring of the lowercase member or vice versa, or some
whitespace token of the lowercase query is a substring of the lowercase
member; each member appears at most once (for a duplicate-free pool), the
result is empty when nothing matches, and the function is total (it never
raises). -/
theorem find_similar_spec (q : String) (pool : List String) :
    (q ∈ pool → findSimilarList q pool = [q]) ∧
    (q ∉ pool →
      findSimilarList q pool = pool.filter (matchesQuery (pyLower q))) ∧
    (q ∉ pool → (∀ c ∈ pool, matchesQuery (pyLower q) c = false) →
      findSimilarList q pool = []) ∧
    (pool.Nodup → (findSimilarList q pool).Nodup) := by
  refine ⟨findSimilarList_exact q pool, findSimilarList_eq_filter q pool, ?_, ?_⟩
  · intro h hall
    rw [findSimilarList_eq_filter q pool h]
    exact List.filter_eq_nil_iff.mpr (fun c hc => by simp [hall c hc])
  · intro hnd
    by_cases h : q ∈ pool
    · simp [findSimilarList_exact q pool h]
    · rw [findSimilarList_eq_filter q pool h]
      exact hnd.filter _

/-- Witness for C2 at a concrete query and pool: `"数学"` is not an exact
member, and fuzzy matching keeps exactly the one course containing it. -/
theorem find_similar_spec_witness :
    ("数学" ∉ ["高等数学", "体育"]) ∧
    findSimilarList "数学" ["高等数学", "体育"] = ["高等数学"] := by
  refine ⟨by decide, ?_⟩
  rw [(find_similar_spec "数学" ["高等数学", "体育"]).2.1 (by decide)]
  decide

/-- C8: a non-force `select_course` call never mutates the state: the
selection set and the catalog after the call are those before it, whatever
result dictionary is returned. -/
theorem select_nonforce_frame (sys : CourseSystem) (name : String) :
    (select_course sys name false).2 = sys := by
  unfold select_course
  simp only [Bool.false_and, Bool.false_eq_true, if_false]
  split <;> rfl

/-- C1: for every name and state, a non-force `select_course` (pool = all
catalog names), and a `delete_course` with a name that is not an exact
member of the selection set (pool = selection set), return a result in
exactly one of three shapes, determined by the length of the fuzzy-match
result: empty gives a not-found failure, a singleton gives a confirmation
request carrying that match, and more than one gives the match list in
engine order with a 1-based numbered menu.  The three length conditions are
mutually exclusive and exhaustive, and the outcome is a returned value (the
embedded operations are total functions). -/
theorem operation_trichotomy (sys : CourseSystem) (name : String) :
    ((find_similar_courses sys name = [] →
        (select_course sys name false).1 =
          { success := false,
            message := s!"未找到与 \x27{name}\x27 相关的课程",
            similar_courses := [], needs_confirmation := false,
            course_to_confirm := none }) ∧
     (∀ m, find_similar_courses sys name = [m] →
        (select_course sys name false).1 =
          { success := false, message := s!"您是否想选择 \x27{m}\x27 ？",
            similar_courses := [], needs_confirmation := true,
            course_to_confirm := some m }) ∧
     (∀ ms, find_similar_courses sys name = ms → 1 < ms.length →
        (select_course sys name false).1 =
          { success := false,
            message := "找到多个相关课程：\n" ++ menuLines ms,
            similar_courses := ms, needs_confirmation := false,
            course_to_confirm := none })) ∧
    (name ∉ sys.selected_courses →
     ((find_similar_courses sys name true = [] →
        (delete_course sys name false).1 =
          { success := false,
            message := s!"未找到与 \x27{name}\x27 相关的已选课程",
            similar_courses := [], needs_confirmation := false,
            course_to_confirm := none }) ∧
      (∀ m, find_similar_courses sys name true = [m] →
        (delete_course sys name false).1 =
          { success := false, message := s!"您是否想退选 \x27{m}\x27 ？",
            similar_courses := [], needs_confirmation := true,
            course_to_confirm := some m }) ∧
      (∀ ms, find_similar_courses sys name true = ms → 1 < ms.length →
        (delete_course sys name false).1 =
          { success := false,
            message := "找到多个相关的已选课程：\n" ++ menuLines ms,
            similar_courses := ms, needs_confirmation := false,
            course_to_confirm := none }))) := by
  refine ⟨⟨?_, ?_, ?_⟩, fun hsel => ⟨?_, ?_, ?_⟩⟩
  · intro h
    simp [select_course, h, emptyResult]
  · intro m h
    simp [select_course, h, emptyResult]
  · intro ms h hlen
    cases ms with
    | nil => simp at hlen
    | cons a t =>
      cases t with
      | nil => simp at hlen
      | cons b t' => simp [select_course, h, emptyResult]
  · intro h
    simp [delete_course, hsel, h, emptyResult]
  · intro m h
    simp [delete_course, hsel, h, emptyResult]
  · intro ms h hlen
    cases ms with
    | nil => simp at hlen
    | cons a t =>
      cases t with
      | nil => simp at hlen
      | cons b t' => simp [delete_course, hsel, h, emptyResult]

/-- Witness for C1 at a concrete state: on the initial system, the
non-exact name `"数学"` produces the confirm-one shape for select, and on an
empty selection set it produces the not-found shape for delete. -/
theorem operation_trichotomy_witness :
    find_similar_courses initSystem "数学" = ["高等数学"] ∧
    (select_course initSystem "数学" false).1 =
      { success := false, message := "您是否想选择 \x27高等数学\x27 ？",
        similar_courses := [], needs_confirmation := true,
        course_to_confirm := some "高等数学" } ∧
    ("数学" ∉ initSystem.selected_courses) ∧
    find_similar_courses initSystem "数学" true = [] ∧
    (delete_course initSystem "数学" false).1 =
      { success := false, message := "未找到与 \x27数学\x27 相关的已选课程",
        similar_courses := [], needs_confirmation := false,
        course_to_confirm := none } := by
  refine ⟨by decide, ?_, by decide, by decide, ?_⟩
  · exact (operation_trichotomy initSystem "数学").1.2.1 "高等数学" (by decide)
  · exact ((operation_trichotomy initSystem "数学").2 (by decide)).1 (by decide)

/-- The mutual-exclusivity shape of a result dictionary: success, a pending
confirmation, and a non-empty disambiguation menu exclude one another. -/
def exclusiveFields (r : OperationResult) : Prop :=
  (r.success = true →
    r.needs_confirmation = false ∧ r.similar_courses = [] ∧
    r.course_to_confirm = none) ∧
  (r.needs_confirmation = true →
    r.success = false ∧ r.similar_courses = [] ∧
    ∃ c, r.course_to_confirm = some c) ∧
  (r.similar_courses ≠ [] →
    r.success = false ∧ r.needs_confirmation = false ∧
    r.course_to_confirm = none)

/-- C10: every result returned by `select_course` or `delete_course`, for
any name, force flag and state, has mutually exclusive outcome fields. -/
theorem result_fields_exclusive (sys : CourseSystem) (name : String)
    (force : Bool) :
    exclusiveFields (select_course sys name force).1 ∧
    exclusiveFields (delete_course sys name force).1 := by
  constructor
  · unfold select_course
    split
    · split <;> simp [exclusiveFields, emptyResult]
    · split <;> simp [exclusiveFields, emptyResult]
  · unfold delete_course
    split
    · simp [exclusiveFields, emptyResult]
    · split
      · simp [exclusiveFields, emptyResult]
      · split <;> simp [exclusiveFields, emptyResult]

/-- Witness for C10 at a concrete input: the multi-match select result on
the initial system has a non-empty menu and therefore reports no success,
no confirmation and no course to confirm. -/
theorem result_fields_exclusive_witness :
    (select_course initSystem "安全" false).1.similar_courses ≠ [] ∧
    (select_course initSystem "安全" false).1.success = false ∧
    (select_course initSystem "安全" false).1.needs_confirmation = false ∧
    (select_course initSystem "安全" false).1.course_to_confirm = none := by
  have h := (result_fields_exclusive initSystem "安全" false).1
  have hne : (select_course initSystem "安全" false).1.similar_courses ≠ [] := by
    decide
  exact ⟨hne, (h.2.2 hne).1, (h.2.2 hne).2.1, (h.2.2 hne).2.2⟩

/-! ## Helper lemmas about the force paths -/

/-- A name outside the catalog disables the force fast path of
`select_course`: the call is the non-force call. -/
theorem select_unknown_eq_nonforce (sys : CourseSystem) (name : String)
    (force : Bool) (h : name ∉ sys.courseNames) :
    select_course sys name force = select_course sys name false := by
  simp [select_course, h]

/-- The shared disambiguation branch of `select_course` keeps the state and
reports no success. -/
theorem select_nonforce_aux (sys : CourseSystem) (name : String) :
    (select_course sys name false).2 = sys ∧
    (select_course sys name false).1.success = false := by
  unfold select_course
  simp only [Bool.false_and, Bool.false_eq_true, if_false]
  split <;> exact ⟨rfl, rfl⟩

/-- The successful force-insert branch of `select_course`, spelled out. -/
theorem select_force_add (sys : CourseSystem) (name : String)
    (hm : name ∈ sys.courseNames) (hs : name ∉ sys.selected_courses) :
    select_course sys name true =
      ({ emptyResult with success := true, message := s!"成功选择 {name}" },
       { sys with selected_courses := sys.selected_courses ++ [name] }) := by
  simp [select_course, hm, hs]

/-- A name outside the selection set disables both fast paths of
`delete_course`: the call is the non-force call. -/
theorem delete_not_selected_eq_nonforce (sys : CourseSystem) (name : String)
    (force : Bool) (h : name ∉ sys.selected_courses) :
    delete_course sys name force = delete_course sys name false := by
  simp [delete_course, h]

/-- The disambiguation branch of `delete_course` keeps the state and
reports no success. -/
theorem delete_nonforce_aux (sys : CourseSystem) (name : String)
    (h : name ∉ sys.selected_courses) :
    (delete_course sys name false).2 = sys ∧
    (delete_course sys name false).1.success = false := by
  unfold delete_course
  simp only [Bool.false_and, Bool.false_eq_true, if_false, h, if_neg]
  split <;> exact ⟨rfl, rfl⟩

/-- Counterexample to C3 as stated: the name `"数学"` is not in the catalog,
yet `select_course` with `force = true` does not return the course-not-found
message — it falls through to fuzzy matching and requests a confirmation.
(The state is unchanged and `success` is false, as claimed.) -/
theorem select_force_unknown_cex :
    "数学" ∉ initSystem.courseNames ∧
    (select_course initSystem "数学" true).2 = initSystem ∧
    (select_course initSystem "数学" true).1.success = false ∧
    (select_course initSystem "数学" true).1.needs_confirmation = true ∧
    (select_course initSystem "数学" true).1.message
      ≠ "未找到与 \x27数学\x27 相关的课程" := by decide

/-- C3 as amended: for a state whose selection set lies inside the catalog,
`select_course name force=true` (1) with `name` outside the catalog leaves
the state unchanged, reports no success, and behaves exactly like the
non-force disambiguation call (a not-found message only when nothing
fuzzy-matches); (2) with `name` already selected reports `success = false`
with the already-selected message and an unchanged state; (3) otherwise
inserts `name` and reports `success = true`; and (4) a second force select
of the same course after a first success changes nothing and reports
`success = false`. -/
theorem select_force_spec (sys : CourseSystem) (name : String)
    (hinv : ∀ c ∈ sys.selected_courses, c ∈ sys.courseNames) :
    (name ∉ sys.courseNames →
      select_course sys name true = select_course sys name false ∧
      (select_course sys name true).2 = sys ∧
      (select_course sys name true).1.success = false) ∧
    (name ∈ sys.selected_courses →
      (select_course sys name true).1.success = false ∧
      (select_course sys name true).1.message = s!"您已经选择了 {name}" ∧
      (select_course sys name true).2 = sys) ∧
    (name ∈ sys.courseNames → name ∉ sys.selected_courses →
      (select_course sys name true).1.success = true ∧
      (select_course sys name true).2.selected_courses
        = sys.selected_courses ++ [name] ∧
      (select_course sys name true).2.courses = sys.courses) ∧
    (name ∈ sys.courseNames → name ∉ sys.selected_courses →
      (select_course (select_course sys name true).2 name true).1.success
        = false ∧
      (select_course (select_course sys name true).2 name true).2
        = (select_course sys name true).2) := by
  refine ⟨?_, ?_, ?_, ?_⟩
  · intro h
    have he := select_unknown_eq_nonforce sys name true h
    rw [he]
    exact ⟨rfl, (select_nonforce_aux sys name).1, (select_nonforce_aux sys name).2⟩
  · intro h
    have hm := hinv name h
    simp [select_course, hm, h, emptyResult]
  · intro hm hs
    rw [select_force_add sys name hm hs]
    simp [emptyResult]
  · intro hm hs
    rw [select_force_add sys name hm hs]
    have hm1 : name ∈
        ({ sys with selected_courses := sys.selected_courses ++ [name] }
          : CourseSystem).courseNames := hm
    have hs1 : name ∈ sys.selected_courses ++ [name] :=
      List.mem_append_right _ (List.mem_singleton.mpr rfl)
    simp [select_course, hm1, hs1, emptyResult]

/-- Witness for C3's amended statement at a concrete input: on the initial
system (whose empty selection set is trivially inside the catalog), the
unknown name `"数学"` makes the force call coincide with the non-force
call. -/
theorem select_force_spec_witness :
    (∀ c ∈ initSystem.selected_courses, c ∈ initSystem.courseNames) ∧
    ("数学" ∉ initSystem.courseNames) ∧
    select_course initSystem "数学" true = select_course initSystem "数学" false := by
  refine ⟨by decide, by decide, ?_⟩
  exact (((select_force_spec initSystem "数学" (by decide)).1 (by decide))).1

/-- Counterexample to C4 as stated: with `"高等数学"` selected, a force
delete of the non-member name `"数学"` is not a plain no-op failure — it
falls through to fuzzy matching over the selection set and requests a
confirmation.  (The state is unchanged and `success` is false, as
claimed.) -/
theorem delete_force_fallthrough_cex :
    ("数学" ∉ (CourseSystem.mk initCourses ["高等数学"]).selected_courses) ∧
    (delete_course (CourseSystem.mk initCourses ["高等数学"]) "数学"
        true).1.needs_confirmation = true ∧
    (delete_course (CourseSystem.mk initCourses ["高等数学"]) "数学"
        true).1.success = false ∧
    (delete_course (CourseSystem.mk initCourses ["高等数学"]) "数学" true).2
      = CourseSystem.mk initCourses ["高等数学"] := by decide

/-- C4 as amended: `delete_course name force=true` removes `name` and
reports success when `name` is a member of the selection set; otherwise the
state is unchanged and `success` is false, but the call behaves exactly
like the non-force disambiguation call (a confirmation or a menu may be
returned when the selection set fuzzy-matches the name). -/
theorem delete_force_spec (sys : CourseSystem) (name : String) :
    (name ∈ sys.selected_courses →
      (delete_course sys name true).1.success = true ∧
      (delete_course sys name true).2.selected_courses
        = sys.selected_courses.erase name ∧
      (delete_course sys name true).2.courses = sys.courses) ∧
    (name ∉ sys.selected_courses →
      delete_course sys name true = delete_course sys name false ∧
      (delete_course sys name true).2 = sys ∧
      (delete_course sys name true).1.success = false) := by
  refine ⟨?_, ?_⟩
  · intro h
    simp [delete_course, h, emptyResult]
  · intro h
    have he := delete_not_selected_eq_nonforce sys name true h
    rw [he]
    exact ⟨rfl, (delete_nonforce_aux sys name h).1, (delete_nonforce_aux sys name h).2⟩

/-- Witness for C4's amended statement at a concrete input: deleting the
selected course `"高等数学"` with force succeeds and erases it. -/
theorem delete_force_spec_witness :
    ("高等数学" ∈ (CourseSystem.mk initCourses ["高等数学"]).selected_courses) ∧
    (delete_course (CourseSystem.mk initCourses ["高等数学"]) "高等数学"
        true).1.success = true ∧
    (delete_course (CourseSystem.mk initCourses ["高等数学"]) "高等数学"
        true).2.selected_courses
      = (CourseSystem.mk initCourses ["高等数学"]).selected_courses.erase
          "高等数学" := by
  refine ⟨by decide, ?_, ?_⟩
  · exact ((delete_force_spec (CourseSystem.mk initCourses ["高等数学"])
      "高等数学").1 (by decide)).1
  · exact ((delete_force_spec (CourseSystem.mk initCourses ["高等数学"])
      "高等数学").1 (by decide)).2.1

/-- Counterexample to C9 as stated: when the course is already selected,
the force select is a no-op but the subsequent force delete removes it, so
the selection set is not restored. -/
theorem select_delete_symmetry_cex :
    ("高等数学" ∈ (CourseSystem.mk initCourses ["高等数学"]).selected_courses) ∧
    (delete_course
        (select_course (CourseSystem.mk initCourses ["高等数学"]) "高等数学"
          true).2 "高等数学" true).2
      ≠ CourseSystem.mk initCourses ["高等数学"] := by decide

/-- C9 as amended: provided the course is not already in the selection set,
a force delete immediately after a force select of that course restores the
state to its pre-select value. -/
theorem select_delete_symmetry (sys : CourseSystem) (c : String)
    (h : c ∉ sys.selected_courses) :
    (delete_course (select_course sys c true).2 c true).2 = sys := by
  by_cases hm : c ∈ sys.courseNames
  · rw [select_force_add sys c hm h]
    have hc : c ∈ sys.selected_courses ++ [c] :=
      List.mem_append_right _ (List.mem_singleton.mpr rfl)
    simp only [delete_course, hc, decide_eq_true_eq, if_true, Bool.true_and,
      decide_eq_true hc, Bool.and_self, if_pos]
    rw [List.erase_append_right _ h]
    simp
  · rw [select_unknown_eq_nonforce sys c true hm, (select_nonforce_aux sys c).1,
      delete_not_selected_eq_nonforce sys c true h]
    exact (delete_nonforce_aux sys c h).1

/-- Witness for C9's amended statement at a concrete input: selecting and
then force-deleting `"高等数学"` from the fresh system restores it. -/
theorem select_delete_symmetry_witness :
    ("高等数学" ∉ initSystem.selected_courses) ∧
    (delete_course (select_course initSystem "高等数学" true).2 "高等数学"
        true).2 = initSystem := by
  exact ⟨by decide, select_delete_symmetry initSystem "高等数学" (by decide)⟩

/-! ## Lemmas about the stable descending sort and the query -/

/-- Insertion permutes: the new element is just put somewhere inside. -/
theorem insertByKeyDesc_perm (key : α → Nat) (x : α) (l : List α) :
    (insertByKeyDesc key x l).Perm (x :: l) := by
  induction l with
  | nil => exact List.Perm.refl _
  | cons y ys ih =>
    unfold insertByKeyDesc
    split
    · exact (ih.cons y).trans (List.Perm.swap x y ys)
    · exact List.Perm.refl _

/-- The sort is a permutation of its input. -/
theorem sortByKeyDesc_perm (key : α → Nat) (l : List α) :
    (sortByKeyDesc key l).Perm l := by
  induction l with
  | nil => exact List.Perm.refl _
  | cons x xs ih =>
    exact (insertByKeyDesc_perm key x (sortByKeyDesc key xs)).trans (ih.cons x)

/-- Insertion preserves the non-increasing-key order. -/
theorem insertByKeyDesc_pairwise (key : α → Nat) (x : α) (l : List α)
    (h : l.Pairwise (fun a b => key b ≤ key a)) :
    (insertByKeyDesc key x l).Pairwise (fun a b => key b ≤ key a) := by
  induction l with
  | nil => simp [insertByKeyDesc]
  | cons y ys ih =>
    rw [List.pairwise_cons] at h
    unfold insertByKeyDesc
    split
    · rename_i hlt
      rw [List.pairwise_cons]
      refine ⟨?_, ih h.2⟩
      intro z hz
      rcases List.mem_cons.mp
          ((insertByKeyDesc_perm key x ys).mem_iff.mp hz) with hzx | hz'
      · exact hzx ▸ Nat.le_of_lt hlt
      · exact h.1 z hz'
    · rename_i hnlt
      rw [List.pairwise_cons]
      refine ⟨?_, List.pairwise_cons.mpr h⟩
      intro z hz
      rcases List.mem_cons.mp hz with hzy | hz'
      · exact hzy ▸ Nat.le_of_not_lt hnlt
      · exact Nat.le_trans (h.1 z hz') (Nat.le_of_not_lt hnlt)

/-- The sort output is in non-increasing key order. -/
theorem sortByKeyDesc_pairwise (key : α → Nat) (l : List α) :
    (sortByKeyDesc key l).Pairwise (fun a b => key b ≤ key a) := by
  induction l with
  | nil => simp [sortByKeyDesc]
  | cons x xs ih => exact insertByKeyDesc_pairwise key x _ ih

/-- Stability of insertion, as a filter equation: restricted to any single
key value, inserting is just consing, because the elements passed over all
have a strictly larger key. -/
theorem insertByKeyDesc_filter (key : α → Nat) (k : Nat) (x : α) (l : List α) :
    (insertByKeyDesc key x l).filter (fun y => key y == k) =
      (x :: l).filter (fun y => key y == k) := by
  induction l with
  | nil => rfl
  | cons y ys ih =>
    unfold insertByKeyDesc
    split
    · rename_i hlt
      by_cases hx : key x = k
      · have hy : ¬ key y = k := by omega
        simp only [List.filter_cons, beq_iff_eq, decide_eq_true_eq,
          if_pos hx, if_neg hy] at ih ⊢
        exact ih
      · by_cases hy : key y = k
        · simp only [List.filter_cons, beq_iff_eq, decide_eq_true_eq,
            if_neg hx, if_pos hy] at ih ⊢
          rw [ih]
        · simp only [List.filter_cons, beq_iff_eq, decide_eq_true_eq,
            if_neg hx, if_neg hy] at ih ⊢
          exact ih
    · rfl

/-- Stability of the sort, as a filter equation: restricted to any single
key value, the sort is the identity. -/
theorem sortByKeyDesc_filter (key : α → Nat) (k : Nat) (l : List α) :
    (sortByKeyDesc key l).filter (fun y => key y == k) =
      l.filter (fun y => key y == k) := by
  induction l with
  | nil => rfl
  | cons x xs ih =>
    unfold sortByKeyDesc
    rw [insertByKeyDesc_filter]
    simp only [List.filter_cons]
    by_cases h : key x = k
    · simp only [beq_iff_eq, if_pos h, ih]
    · simp only [beq_iff_eq, if_neg h, ih]

/-- Association-list lookup finds the stored value when the keys are
duplicate-free. -/
theorem lookup_of_mem_of_nodup (l : List (String × CourseInfo)) (a : String)
    (b : CourseInfo) (hnd : (l.map Prod.fst).Nodup) (hmem : (a, b) ∈ l) :
    l.lookup a = some b := by
  induction l with
  | nil => cases hmem
  | cons p t ih =>
    obtain ⟨k, v⟩ := p
    simp only [List.map_cons, List.nodup_cons] at hnd
    rcases List.mem_cons.mp hmem with h | h
    · obtain ⟨rfl, rfl⟩ := Prod.mk.injEq .. ▸ h
      simp [List.lookup]
    · have hne : (a == k) = false := by
        refine beq_eq_false_iff_ne.mpr ?_
        intro he
        exact hnd.1 (he ▸ List.mem_map.mpr ⟨(a, b), h, rfl⟩)
      rw [List.lookup, hne]
      exact ih hnd.2 h

/-- Membership in the filtered row list, characterised by the catalog. -/
theorem mem_baseRows (sys : CourseSystem) (filters : List String)
    (r : QueryRow) :
    r ∈ baseRows sys filters ↔
      ((r.name, { ctype := r.ctype, tags := r.tags }) ∈ sys.courses ∧
       (filters = [] ∨ r.ctype ∈ filters)) := by
  constructor
  · intro h
    simp only [baseRows, List.mem_map, List.mem_filter] at h
    obtain ⟨p, ⟨hp, hcond⟩, hr⟩ := h
    subst hr
    simp only [Bool.or_eq_true, List.isEmpty_iff, decide_eq_true_eq] at hcond
    exact ⟨hp, hcond⟩
  · intro ⟨hmem, hcond⟩
    simp only [baseRows, List.mem_map, List.mem_filter]
    refine ⟨(r.name, { ctype := r.ctype, tags := r.tags }), ⟨hmem, ?_⟩, rfl⟩
    simp only [Bool.or_eq_true, List.isEmpty_iff, decide_eq_true_eq]
    exact hcond

/-- On a row actually stored in a duplicate-free catalog, the sort key is
the tag-intersection size of the row's own tags. -/
theorem tagKey_eq_interSize (sys : CourseSystem) (interests : List String)
    (r : QueryRow) (hnd : sys.courseNames.Nodup)
    (hmem : (r.name, { ctype := r.ctype, tags := r.tags }) ∈ sys.courses) :
    tagKey sys interests r = interSize r.tags interests := by
  unfold tagKey
  rw [lookup_of_mem_of_nodup sys.courses r.name _ hnd hmem]

/-- C5: `query_courses` returns exactly the courses whose type passes the
filter (all of them when `filters` is empty); with empty `interests` the
catalog order is preserved unmodified; with non-empty `interests` the
result is a permutation of the filtered list, in non-increasing order of
the tag-intersection size, and stable: restricted to any fixed key value
the result equals the filtered list, so equal-key courses keep their
relative catalog order.  On a duplicate-free catalog the sort key is the
intersection size of the row's tags with the interests. -/
theorem query_courses_spec (sys : CourseSystem)
    (filters interests : List String) :
    (query_courses sys filters [] = baseRows sys filters) ∧
    (∀ r : QueryRow, r ∈ query_courses sys filters interests ↔
      ((r.name, { ctype := r.ctype, tags := r.tags }) ∈ sys.courses ∧
       (filters = [] ∨ r.ctype ∈ filters))) ∧
    (query_courses sys filters interests).Perm (baseRows sys filters) ∧
    (interests ≠ [] →
      (query_courses sys filters interests).Pairwise
        (fun a b => tagKey sys interests b ≤ tagKey sys interests a)) ∧
    (∀ k : Nat, (query_courses sys filters interests).filter
        (fun r => tagKey sys interests r == k) =
      (baseRows sys filters).filter (fun r => tagKey sys interests r == k)) ∧
    (sys.courseNames.Nodup → ∀ r ∈ query_courses sys filters interests,
      tagKey sys interests r = interSize r.tags interests) := by
  have hperm : (query_courses sys filters interests).Perm
      (baseRows sys filters) := by
    unfold query_courses
    split
    · exact List.Perm.refl _
    · exact sortByKeyDesc_perm _ _
  refine ⟨?_, ?_, hperm, ?_, ?_, ?_⟩
  · unfold query_courses
    simp
  · intro r
    rw [hperm.mem_iff]
    exact mem_baseRows sys filters r
  · intro hne
    unfold query_courses
    rw [if_neg (by simpa [List.isEmpty_iff] using hne)]
    exact sortByKeyDesc_pairwise _ _
  · intro k
    unfold query_courses
    split
    · rfl
    · exact sortByKeyDesc_filter _ k _
  · intro hnd r hr
    have hb := (hperm.mem_iff.mp hr)
    rw [mem_baseRows] at hb
    exact tagKey_eq_interSize sys interests r hnd hb.1

/-- Witness for C5 at a concrete input: filtering the initial catalog to
elective courses and sorting by the interest `"安全"` keeps exactly the
elective rows, and the course list is stable on the key-0 stratum. -/
theorem query_courses_spec_witness :
    (({ name := "体育", ctype := "选修", tags := ["运动"] } : QueryRow)
        ∈ query_courses initSystem ["选修"] ["安全"]) ∧
    (("体育", { ctype := "选修", tags := ["运动"] }) ∈ initSystem.courses ∧
      ((["选修"] : List String) = [] ∨ "选修" ∈ (["选修"] : List String))) ∧
    ((["安全"] : List String) ≠ []) ∧
    (query_courses initSystem ["选修"] ["安全"]).Pairwise
      (fun a b => tagKey initSystem ["安全"] b ≤ tagKey initSystem ["安全"] a) := by
  have h := query_courses_spec initSystem ["选修"] ["安全"]
  refine ⟨?_, ⟨by decide, Or.inr (by decide)⟩, by decide, h.2.2.2.1 (by decide)⟩
  exact (h.2.1 _).mpr ⟨by decide, Or.inr (by decide)⟩

/-! ## Lemmas about the conversation history -/

/-- Repeatedly feed messages to `add_message`, in order. -/
def addAll (cm : ConversationManager) (msgs : List Message) :
    ConversationManager :=
  msgs.foldl (fun c m => add_message c m.role m.content) cm

/-- One step of `addAll` at the right end. -/
theorem addAll_append_singleton (cm : ConversationManager) (ts : List Message)
    (t : Message) :
    addAll cm (ts ++ [t]) = add_message (addAll cm ts) t.role t.content := by
  simp [addAll, List.foldl_append]

/-- The step `add_message` never touches the capacity. -/
theorem add_message_max (cm : ConversationManager) (role content : String) :
    (add_message cm role content).max_history = cm.max_history := by
  simp only [add_message]
  split <;> rfl

/-- The history after `add_message`, spelled out. -/
theorem add_message_history (cm : ConversationManager) (role content : String) :
    (add_message cm role content).history =
      if cm.history.length + 1 > cm.max_history
      then (cm.history ++ [({ role := role, content := content } : Message)]).tail
      else cm.history ++ [({ role := role, content := content } : Message)] := by
  simp only [add_message]
  by_cases h : cm.history.length + 1 > cm.max_history
  · rw [if_pos h, if_pos (by simpa using h)]
  · rw [if_neg h, if_neg (by simpa using h)]

/-- Folding `addAll` never touches the capacity. -/
theorem addAll_max (cm : ConversationManager) (msgs : List Message) :
    (addAll cm msgs).max_history = cm.max_history := by
  induction msgs using List.reverseRecOn with
  | nil => rfl
  | append_singleton ts t ih =>
    rw [addAll_append_singleton, add_message_max, ih]

/-- Filling an empty manager keeps exactly the most recent `c` messages, in
order: the history is the input minus its oldest surplus prefix. -/
theorem addAll_init_history (c : Nat) (msgs : List Message) :
    (addAll (ConversationManager.init c) msgs).history
      = msgs.drop (msgs.length - c) := by
  induction msgs using List.reverseRecOn with
  | nil => simp [addAll, ConversationManager.init]
  | append_singleton ts t ih =>
    rw [addAll_append_singleton, add_message_history, addAll_max, ih]
    have hlen : (ts.drop (ts.length - c)).length = ts.length - (ts.length - c) :=
      List.length_drop _ _
    by_cases hc : c ≤ ts.length
    · rw [if_pos (by rw [hlen]; simp [ConversationManager.init]; omega)]
      rw [← List.drop_append_of_le_length
        (show ts.length - c ≤ ts.length by omega), List.tail_drop]
      congr 1
      simp only [List.length_append, List.length_singleton]
      omega
    · rw [if_neg (by rw [hlen]; simp [ConversationManager.init]; omega)]
      have h0 : ts.length - c = 0 := by omega
      have h1 : (ts ++ [t]).length - c = 0 := by
        simp only [List.length_append, List.length_singleton]; omega
      rw [h0, h1, List.drop_zero, List.drop_zero]

/-- C6: the history length never exceeds the capacity (`add_message`
preserves the bound from any state satisfying it), and eviction is FIFO:
filling an empty manager of capacity `c` with `N > c` messages leaves
exactly the most recent `c` of them, in append order, and (for pairwise
distinct messages) none of the oldest `N - c`. -/
theorem history_fifo_spec (c : Nat) (msgs : List Message) :
    (∀ (cm : ConversationManager) (role content : String),
      cm.history.length ≤ cm.max_history →
      (add_message cm role content).history.length ≤ cm.max_history) ∧
    ((addAll (ConversationManager.init c) msgs).history.length ≤ c) ∧
    ((addAll (ConversationManager.init c) msgs).history
      = msgs.drop (msgs.length - c)) ∧
    (c < msgs.length →
      (addAll (ConversationManager.init c) msgs).history.length = c) ∧
    (msgs.Nodup → ∀ m ∈ msgs.take (msgs.length - c),
      m ∉ (addAll (ConversationManager.init c) msgs).history) := by
  refine ⟨?_, ?_, addAll_init_history c msgs, ?_, ?_⟩
  · intro cm role content hle
    rw [add_message_history]
    split
    · simp only [List.tail_append_singleton_of_ne_nil, List.length_tail,
        List.length_append, List.length_singleton]
      omega
    · rename_i hng
      simp only [List.length_append, List.length_singleton]
      omega
  · rw [addAll_init_history c msgs, List.length_drop]
    omega
  · intro hlt
    rw [addAll_init_history c msgs, List.length_drop]
    omega
  · intro hnd m hm hmem
    rw [addAll_init_history c msgs] at hmem
    have hsplit := List.take_append_drop (msgs.length - c) msgs
    rw [← hsplit] at hnd
    exact (List.nodup_append.mp hnd).2.2 hm hmem

/-- Witness for C6 at a concrete input: four distinct messages into the
default-capacity manager keep exactly the last three, in order. -/
theorem history_fifo_spec_witness :
    (3 < ([{ role := "user", content := "a" }, { role := "assistant", content := "b" },
           { role := "user", content := "c" }, { role := "assistant", content := "d" }]
          : List Message).length) ∧
    (addAll (ConversationManager.init 3)
        [{ role := "user", content := "a" }, { role := "assistant", content := "b" },
         { role := "user", content := "c" }, { role := "assistant", content := "d" }]).history
      = [{ role := "assistant", content := "b" }, { role := "user", content := "c" },
         { role := "assistant", content := "d" }] ∧
    (addAll (ConversationManager.init 3)
        [{ role := "user", content := "a" }, { role := "assistant", content := "b" },
         { role := "user", content := "c" }, { role := "assistant", content := "d" }]).history.length
      = 3 := by
  have h := history_fifo_spec 3
    [{ role := "user", content := "a" }, { role := "assistant", content := "b" },
     { role := "user", content := "c" }, { role := "assistant", content := "d" }]
  refine ⟨by decide, ?_, h.2.2.2.1 (by decide)⟩
  rw [h.2.2.1]
  rfl

/-- C7: starting from the empty selection set, membership of every selected
course in the catalog is an invariant preserved by every `select_course`
and `delete_course` call, with any name and any force flag (the only
operations that mutate the selection set). -/
theorem selection_subset_invariant (sys : CourseSystem) (name : String)
    (force : Bool)
    (hinv : ∀ c ∈ sys.selected_courses, c ∈ sys.courseNames) :
    (∀ c ∈ (select_course sys name force).2.selected_courses,
      c ∈ (select_course sys name force).2.courseNames) ∧
    (∀ c ∈ (delete_course sys name force).2.selected_courses,
      c ∈ (delete_course sys name force).2.courseNames) ∧
    (∀ c ∈ initSystem.selected_courses, c ∈ initSystem.courseNames) := by
  refine ⟨?_, ?_, by simp [initSystem]⟩
  · unfold select_course
    split
    · rename_i hcond
      have hmem : name ∈ sys.courseNames := by
        simp only [Bool.and_eq_true, decide_eq_true_eq] at hcond
        exact hcond.2
      split
      · exact hinv
      · intro c hc
        rcases List.mem_append.mp hc with h | h
        · exact hinv c h
        · rw [List.mem_singleton.mp h]
          exact hmem
    · split <;> exact hinv
  · unfold delete_course
    split
    · intro c hc
      exact hinv c (List.erase_subset _ _ hc)
    · split
      · exact hinv
      · split <;> exact hinv

/-- Witness for C7 at a concrete input: the initial (empty) selection set
satisfies the invariant, and it is preserved by a successful force
select. -/
theorem selection_subset_invariant_witness :
    (∀ c ∈ initSystem.selected_courses, c ∈ initSystem.courseNames) ∧
    (∀ c ∈ (select_course initSystem "高等数学" true).2.selected_courses,
      c ∈ (select_course initSystem "高等数学" true).2.courseNames) := by
  refine ⟨by decide, ?_⟩
  exact (selection_subset_invariant initSystem "高等数学" true (by decide)).1

end CourseAgent
